import Mathlib

/-!
Verification development for the PDF question-extraction pipeline
(`backend/app/question_extractor.py`, `backend/app/pdf_processor.py`).

Page texts are modelled as `List Char`.  Python string primitives
(`strip`, `lower`, `title`, `split`, `count`, `find`, slicing) are
translated directly; the regular expressions used by the source are
interpreted by a small backtracking engine (`mtch`) that is faithful to
Python `re` semantics for the pattern subset the source uses: every
quantifier in the source's patterns ranges over a single character
class, so matching is total.  Character-level functions are ASCII-faithful
(the concrete inputs of interest are ASCII).
-/

/-- Characters stripped by Python `str.strip()` and matched by `\s`
(ASCII part). -/
def isPySpace (c : Char) : Bool :=
  c = ' ' || c = '\t' || c = '\n' || c = '\r' || c = '\x0b' || c = '\x0c'

/-- ASCII digit, as matched by `\d`. -/
def isDigitC (c : Char) : Bool := '0' ≤ c && c ≤ '9'

/-- Word character for `\b`: `[A-Za-z0-9_]`. -/
def isWordC (c : Char) : Bool := c.isAlphanum || c = '_'

/-- Python `str.lower()` (ASCII). -/
def toLowerL (l : List Char) : List Char := l.map Char.toLower

/-- Python `str.strip()`. -/
def stripL (l : List Char) : List Char :=
  ((l.dropWhile isPySpace).reverse.dropWhile isPySpace).reverse

/-- Python `str.split('\n')` (keeps empty pieces). -/
def splitLinesAux : List Char → List Char → List (List Char)
  | [], cur => [cur.reverse]
  | c :: t, cur =>
    if c = '\n' then cur.reverse :: splitLinesAux t []
    else splitLinesAux t (c :: cur)

def splitLines (l : List Char) : List (List Char) := splitLinesAux l []

/-- Python `str.split()` (whitespace runs, empty pieces dropped). -/
def splitWsAux : List Char → List Char → List (List Char)
  | [], cur => if cur.isEmpty then [] else [cur.reverse]
  | c :: t, cur =>
    if isPySpace c then
      if cur.isEmpty then splitWsAux t [] else cur.reverse :: splitWsAux t []
    else splitWsAux t (c :: cur)

def splitWs (l : List Char) : List (List Char) := splitWsAux l []

/-- Python `str.count(c)` for a single character. -/
def countChar (l : List Char) (c : Char) : Nat := (l.filter (· = c)).length

/-- `startsWithL needle hay`: Python `hay.startswith(needle)`. -/
def startsWithL : List Char → List Char → Bool
  | [], _ => true
  | _ :: _, [] => false
  | a :: as, b :: bs => a == b && startsWithL as bs

/-- Python `needle in hay` (substring containment). -/
def containsSub : List Char → List Char → Bool
  | [], needle => needle.isEmpty
  | c :: t, needle => startsWithL needle (c :: t) || containsSub t needle

/-- Python `text.endswith(c)` for a single character. -/
def endsWithC (l : List Char) (c : Char) : Bool := l.getLast? == some c

/-- Python `hay.find(needle)` (first index, `None` for -1). -/
def findSubAux (needle : List Char) : List Char → Nat → Option Nat
  | [], i => if needle.isEmpty then some i else none
  | c :: t, i =>
    if startsWithL needle (c :: t) then some i else findSubAux needle t (i + 1)

def findSub (hay needle : List Char) : Option Nat := findSubAux needle hay 0

/-- Python `str.title()` (ASCII): an alphabetic character is uppercased
when the previous character is not alphabetic, lowercased otherwise. -/
def pyTitleGo : Bool → List Char → List Char
  | _, [] => []
  | prev, c :: t =>
    if c.isAlpha then (if prev then c.toLower else c.toUpper) :: pyTitleGo true t
    else c :: pyTitleGo false t

def pyTitle (l : List Char) : List Char := pyTitleGo false l

/-- Python `int()` on a string of decimal digits. -/
def parseNatL (l : List Char) : Nat :=
  l.foldl (fun a c => 10 * a + (c.toNat - '0'.toNat)) 0

/-- Python slicing `s[a:b]`. -/
def sliceL (l : List Char) (a b : Nat) : List Char := (l.drop a).take (b - a)

/-! ## Regex engine

Abstract syntax for the pattern subset the source uses.  Quantifiers
(`starG`/`starL`/`plusG`/`plusL`, greedy and lazy) range over a single
character class, exactly as in every pattern of the source, so matching
consumes one character per iteration and is total. -/

inductive RE where
  | eps
  | cls (p : Char → Bool)
  | seq (a b : RE)
  | alt (a b : RE)
  | opt (a : RE)
  | starG (p : Char → Bool)
  | starL (p : Char → Bool)
  | plusG (p : Char → Bool)
  | plusL (p : Char → Bool)
  | grp (n : Nat) (a : RE)
  | bol
  | eol
  | wordB

/-- Length of the run of characters satisfying `p`. -/
def runLen (p : Char → Bool) : List Char → Nat
  | [] => 0
  | c :: t => if p c then runLen p t + 1 else 0

/-- Greedy backtracking over end positions `i + n, …, i` (longest first). -/
def tryG {α : Type} (k : Nat → Option α) (i : Nat) : Nat → Option α
  | 0 => k i
  | n + 1 => (k (i + (n + 1))) <|> tryG k i n

/-- Lazy backtracking over end positions `i, i + 1, …, i + n` (shortest first). -/
def tryL {α : Type} (k : Nat → Option α) (i : Nat) : Nat → Option α
  | 0 => k i
  | n + 1 => (k i) <|> tryL k (i + 1) n

/-- Backtracking matcher in continuation-passing style.  `mtch re s i cs k`
tries to match `re` in `s` starting at index `i` with captured groups `cs`
(entries `(group, start, stop)`), calling `k` at each candidate end
position in Python-`re` preference order.  `bol`/`eol` use MULTILINE
semantics (which coincide with the non-MULTILINE ones on texts without
newlines, the only place the source matches anchors without MULTILINE). -/
def mtch : RE → List Char → Nat → List (Nat × Nat × Nat) →
    (Nat → List (Nat × Nat × Nat) → Option (Nat × List (Nat × Nat × Nat))) →
    Option (Nat × List (Nat × Nat × Nat))
  | .eps, _, i, cs, k => k i cs
  | .cls p, s, i, cs, k =>
    match s[i]? with
    | some c => if p c then k (i + 1) cs else none
    | none => none
  | .seq a b, s, i, cs, k => mtch a s i cs (fun j cs2 => mtch b s j cs2 k)
  | .alt a b, s, i, cs, k => (mtch a s i cs k) <|> (mtch b s i cs k)
  | .opt a, s, i, cs, k => (mtch a s i cs k) <|> k i cs
  | .starG p, s, i, cs, k => tryG (fun j => k j cs) i (runLen p (s.drop i))
  | .starL p, s, i, cs, k => tryL (fun j => k j cs) i (runLen p (s.drop i))
  | .plusG p, s, i, cs, k =>
    let n := runLen p (s.drop i)
    if n = 0 then none else tryG (fun j => k j cs) (i + 1) (n - 1)
  | .plusL p, s, i, cs, k =>
    let n := runLen p (s.drop i)
    if n = 0 then none else tryL (fun j => k j cs) (i + 1) (n - 1)
  | .grp g a, s, i, cs, k => mtch a s i cs (fun j cs2 => k j ((g, i, j) :: cs2))
  | .bol, s, i, cs, k => if i = 0 || s[i-1]? == some '\n' then k i cs else none
  | .eol, s, i, cs, k => if i = s.length || s[i]? == some '\n' then k i cs else none
  | .wordB, s, i, cs, k =>
    let before := if i = 0 then false else (s[i-1]?).any isWordC
    let after := (s[i]?).any isWordC
    if before != after then k i cs else none

/-- A match object: overall span plus captured-group spans (indices into
the subject string, latest capture first). -/
structure RMatch where
  mstart : Nat
  mstop : Nat
  caps : List (Nat × Nat × Nat)
deriving DecidableEq, Repr

/-- Python `re.match(re, s)` (anchored at 0). -/
def reMatch (re : RE) (s : List Char) : Option RMatch :=
  match mtch re s 0 [] (fun j cs => some (j, cs)) with
  | some (j, cs) => some ⟨0, j, cs⟩
  | none => none

/-- Try a match anchored at position `i`. -/
def matchAt (re : RE) (s : List Char) (i : Nat) : Option RMatch :=
  match mtch re s i [] (fun j cs => some (j, cs)) with
  | some (j, cs) => some ⟨i, j, cs⟩
  | none => none

/-- Python `re.finditer`: scan positions left to right, non-overlapping;
an empty match advances the scan position by one. -/
def findIterAux (re : RE) (s : List Char) : Nat → Nat → List RMatch
  | 0, _ => []
  | fuel + 1, pos =>
    if pos > s.length then [] else
    match matchAt re s pos with
    | some m =>
      m :: (if pos < m.mstop then findIterAux re s fuel m.mstop
            else findIterAux re s fuel (pos + 1))
    | none => findIterAux re s fuel (pos + 1)

def findIter (re : RE) (s : List Char) : List RMatch :=
  findIterAux re s (s.length + 1) 0

/-- Python `re.search` (existence of a match). -/
def reSearchAux (re : RE) (s : List Char) : Nat → Nat → Bool
  | 0, _ => false
  | fuel + 1, pos =>
    if pos > s.length then false else
    match matchAt re s pos with
    | some _ => true
    | none => reSearchAux re s fuel (pos + 1)

def reSearch (re : RE) (s : List Char) : Bool := reSearchAux re s (s.length + 1) 0

/-- `match.group(g)` as a sliceL of the subject string. -/
def grpStr (m : RMatch) (g : Nat) (s : List Char) : List Char :=
  match m.caps.lookup g with
  | some (a, b) => sliceL s a b
  | none => []

/-- `match.group(1) if match.groups() else match.group(0)`: group 1 when
the pattern captured one (all capturing patterns of the source capture
group 1 whenever they match), otherwise the whole match. -/
def matchTextSel (m : RMatch) (s : List Char) : List Char :=
  match m.caps.lookup 1 with
  | some (a, b) => sliceL s a b
  | none => sliceL s m.mstart m.mstop

/-- Literal string (exact characters). -/
def litRE : List Char → RE
  | [] => .eps
  | c :: t => .seq (.cls (fun x => x == c)) (litRE t)

/-- Literal string under IGNORECASE (ASCII case fold). -/
def litCI : List Char → RE
  | [] => .eps
  | c :: t => .seq (.cls (fun x => x.toLower == c.toLower)) (litCI t)

/-! ## Question extractor (`question_extractor.py`) -/

/-- `.` in a pattern: any character except newline. -/
def anyNoNl (c : Char) : Bool := c != '\n'

/-- The capturing tail `(.+?\?)` shared by patterns 1-5. -/
def qTail : RE := .grp 1 (.seq (.plusL anyNoNl) (.cls (fun c => c == '?')))

/-- `\b\d+\.\s+(.+?\?)` -/
def qPat1 : RE :=
  .seq .wordB (.seq (.plusG isDigitC)
    (.seq (.cls (fun c => c == '.')) (.seq (.plusG isPySpace) qTail)))

/-- `\b\d+\)\s+(.+?\?)` -/
def qPat2 : RE :=
  .seq .wordB (.seq (.plusG isDigitC)
    (.seq (.cls (fun c => c == ')')) (.seq (.plusG isPySpace) qTail)))

/-- `^Q\d*[:\.]?\s+(.+?\?)` (IGNORECASE: `Q` matches `q`). -/
def qPat3 : RE :=
  .seq .bol (.seq (.cls (fun c => c == 'Q' || c == 'q'))
    (.seq (.starG isDigitC) (.seq (.opt (.cls (fun c => c == ':' || c == '.')))
      (.seq (.plusG isPySpace) qTail))))

/-- `^Question\s+\d*[:\.]?\s+(.+?\?)` (IGNORECASE). -/
def qPat4 : RE :=
  .seq .bol (.seq (litCI "Question".data)
    (.seq (.plusG isPySpace) (.seq (.starG isDigitC)
      (.seq (.opt (.cls (fun c => c == ':' || c == '.')))
        (.seq (.plusG isPySpace) qTail)))))

/-- `^\d+\.\d+\s+(.+?\?)` -/
def qPat5 : RE :=
  .seq .bol (.seq (.plusG isDigitC) (.seq (.cls (fun c => c == '.'))
    (.seq (.plusG isDigitC) (.seq (.plusG isPySpace) qTail))))

/-- `^[A-Z][^.!?]*\?$` (IGNORECASE: `[A-Z]` matches any ASCII letter). -/
def qPat6 : RE :=
  .seq .bol (.seq (.cls Char.isAlpha)
    (.seq (.starG (fun c => !(c == '.' || c == '!' || c == '?')))
      (.seq (.cls (fun c => c == '?')) .eol)))

/-- `self.question_patterns`, applied with `re.MULTILINE | re.IGNORECASE`. -/
def question_patterns : List RE := [qPat1, qPat2, qPat3, qPat4, qPat5, qPat6]

/-- Optional plural `s?` under IGNORECASE. -/
def sOpt : RE := .opt (.cls (fun c => c == 's' || c == 'S'))

/-- `self.exercise_section_patterns` (each `(?i)…`). -/
def exercise_section_patterns : List RE :=
  [ .seq (litCI "exercise".data) sOpt,
    .seq (litCI "problem".data) sOpt,
    .seq (litCI "review".data) (.seq (.plusG isPySpace) (.seq (litCI "question".data) sOpt)),
    .seq (litCI "practice".data) (.seq (.plusG isPySpace) (.seq (litCI "problem".data) sOpt)),
    litCI "homework".data,
    .seq (litCI "assignment".data) sOpt,
    .seq (litCI "study".data) (.seq (.plusG isPySpace) (.seq (litCI "question".data) sOpt)),
    .seq (litCI "discussion".data) (.seq (.plusG isPySpace) (.seq (litCI "question".data) sOpt)) ]

/-- `self.educational_keywords`. -/
def educational_keywords : List (List Char) :=
  [ "chapter".data, "section".data, "exercise".data, "problem".data, "question".data,
    "review".data, "practice".data, "homework".data, "assignment".data, "study".data,
    "discuss".data, "explain".data, "describe".data, "analyze".data, "compare".data ]

/-- The `question_words` list of `_is_valid_question`. -/
def question_words : List (List Char) :=
  [ "what".data, "how".data, "why".data, "when".data, "where".data, "which".data,
    "who".data, "does".data, "is".data, "are".data, "can".data, "will".data,
    "would".data, "should".data ]

/-- The question-mark-density branch of `_is_exercise_section`.
`none` models the `ZeroDivisionError` Python would raise when
`len(text.split())` is zero (shown unreachable below). -/
def questionDensityCheck (text : List Char) : Option Bool :=
  let qc := countChar text '?'
  if 3 ≤ qc ∧ 0 < text.length then
    let words := splitWs text
    if words.length = 0 then none
    else some (decide ((qc : ℚ) / (words.length : ℚ) > 1 / 20))
  else some false

/-- `QuestionExtractor._is_exercise_section`. -/
def is_exercise_section (text : List Char) : Bool :=
  let lower := toLowerL text
  exercise_section_patterns.any (fun p => reSearch p lower)
    || (questionDensityCheck text).getD false

/-- A raw question candidate (`{'text': …, 'number': …}`). -/
structure RawQ where
  text : List Char
  number : Option (List Char)
deriving DecidableEq, Repr

/-- `^(\d+)[\.\)]\s+(.*)` — a numbered line starting a new question. -/
def exLinePat : RE :=
  .seq .bol (.seq (.grp 1 (.plusG isDigitC))
    (.seq (.cls (fun c => c == '.' || c == ')'))
      (.seq (.plusG isPySpace) (.grp 2 (.starG anyNoNl)))))

/-- The line loop of `_extract_from_exercise_section`: `cur`/`num` are the
`current_question` and `question_number` accumulators; a finished buffer is
flushed only when it contains a `?`. -/
def exerciseLoop : List (List Char) → List Char → Option (List Char) → List RawQ
  | [], cur, num =>
    if !cur.isEmpty && cur.contains '?' then [⟨stripL cur, num⟩] else []
  | l :: ls, cur, num =>
    let line := stripL l
    if line.isEmpty then exerciseLoop ls cur num
    else
      match reMatch exLinePat line with
      | some m =>
        (if !cur.isEmpty && cur.contains '?' then [⟨stripL cur, num⟩] else [])
          ++ exerciseLoop ls (grpStr m 2 line) (some (grpStr m 1 line))
      | none =>
        if !cur.isEmpty then exerciseLoop ls (cur ++ ' ' :: line) num
        else exerciseLoop ls cur num

/-- `QuestionExtractor._extract_from_exercise_section`. -/
def extract_from_exercise_section (_text : List Char) (lines : List (List Char)) :
    List RawQ :=
  exerciseLoop lines [] none

/-- `QuestionExtractor._is_valid_question`. -/
def is_valid_question (t : List Char) : Bool :=
  if t.isEmpty || t.length < 10 then false
  else if !(endsWithC t '?') then false
  else
    let lower := toLowerL t
    educational_keywords.any (fun k => containsSub lower k)
      || question_words.any (fun w => startsWithL w lower)

/-- The duplicate-removal pass of `_extract_scattered_questions`
(`seen` holds the lower-cased 50-character keys already emitted). -/
def dedupQs : List (List Char) → List RawQ → List RawQ
  | _, [] => []
  | seen, q :: qs =>
    let key := toLowerL (q.text.take 50)
    if seen.contains key then dedupQs seen qs
    else q :: dedupQs (key :: seen) qs

/-- `QuestionExtractor._extract_scattered_questions`. -/
def extract_scattered_questions (text : List Char) (_lines : List (List Char)) :
    List RawQ :=
  let raw := question_patterns.flatMap (fun p =>
    (findIter p text).filterMap (fun m =>
      let qt := stripL (matchTextSel m text)
      if is_valid_question qt then some (⟨qt, none⟩ : RawQ) else none))
  dedupQs [] raw

/-- `QuestionExtractor._classify_question_type`. -/
def classify_question_type (t : List Char) : List Char :=
  let lower := toLowerL t
  if ["a)".data, "b)".data, "c)".data, "d)".data, "choose".data, "select".data].any
      (fun d => containsSub lower d) then "multiple_choice".data
  else if ["true or false".data, "t/f".data, "true/false".data].any
      (fun d => containsSub lower d) then "true_false".data
  else if ["explain".data, "describe".data, "discuss".data, "analyze".data,
      "compare".data, "contrast".data].any
      (fun d => containsSub lower d) then "essay".data
  else "short_answer".data

/-- `QuestionExtractor._get_question_context` (`i - 200` is Python's
`max(0, i - 200)` by Nat subtraction). -/
def get_question_context (qt full : List Char) : List Char :=
  match findSub full qt with
  | none => []
  | some i => stripL (sliceL full (i - 200) (min full.length (i + qt.length + 200)))

/-- A finished per-page question record. -/
structure PageQuestion where
  text : List Char
  number : Option (List Char)
  context : List Char
  qtype : List Char
deriving DecidableEq, Repr

/-- `QuestionExtractor._extract_questions_from_page`. -/
def extract_questions_from_page (text : List Char) (_pageNum : Nat) :
    List PageQuestion :=
  (if is_exercise_section text then extract_from_exercise_section text (splitLines text)
   else extract_scattered_questions text (splitLines text)).map
    (fun q =>
      ⟨q.text, q.number, get_question_context q.text text, classify_question_type q.text⟩)

/-! ## Structure recovery (`pdf_processor.py`) -/

/-- A literal `.`. -/
def dotC : RE := .cls (fun c => c == '.')

/-- `(?:chapter\s+)?(\d+)\.?\s*([^.]+?)\.{2,}(\d+)` — the top-level TOC
pattern, matched against the lower-cased stripped line. -/
def tocTopPat : RE :=
  .seq (.opt (.seq (litRE "chapter".data) (.plusG isPySpace)))
    (.seq (.grp 1 (.plusG isDigitC))
      (.seq (.opt dotC)
        (.seq (.starG isPySpace)
          (.seq (.grp 2 (.plusL (fun c => c != '.')))
            (.seq dotC (.seq dotC
              (.seq (.starG (fun c => c == '.')) (.grp 3 (.plusG isDigitC)))))))))

/-- `\s+(\d+\.\d+)\s+([^.]+?)\.{2,}(\d+)` — the subchapter TOC pattern,
matched against the (already stripped) line. -/
def tocSubPat : RE :=
  .seq (.plusG isPySpace)
    (.seq (.grp 1 (.seq (.plusG isDigitC) (.seq dotC (.plusG isDigitC))))
      (.seq (.plusG isPySpace)
        (.seq (.grp 2 (.plusL (fun c => c != '.')))
          (.seq dotC (.seq dotC
            (.seq (.starG (fun c => c == '.')) (.grp 3 (.plusG isDigitC))))))))

/-- A recovered outline entry.  The source stores `chapter_number` as the
`int` of group 1 for the top-level pattern (rendered here as its decimal
digits) and as the dotted string for the subchapter pattern. -/
structure TocEntry where
  chapter_number : List Char
  title : List Char
  page_start : Nat
  level : Nat
deriving DecidableEq, Repr

/-- The top-level-pattern check of the TOC line loop, on the stripped line
(the pattern runs on its lower-casing). -/
def tocLineTop (line : List Char) : List TocEntry :=
  match reMatch tocTopPat (toLowerL line) with
  | some m =>
    [⟨Nat.toDigits 10 (parseNatL (grpStr m 1 (toLowerL line))),
      pyTitle (stripL (grpStr m 2 (toLowerL line))),
      parseNatL (grpStr m 3 (toLowerL line)), 1⟩]
  | none => []

/-- The subchapter-pattern check of the TOC line loop, on the stripped line. -/
def tocLineSub (line : List Char) : List TocEntry :=
  match reMatch tocSubPat line with
  | some m =>
    [⟨grpStr m 1 line, pyTitle (stripL (grpStr m 2 line)),
      parseNatL (grpStr m 3 line), 2⟩]
  | none => []

/-- The per-line body of the TOC loop: strip the line, skip it when blank,
otherwise run the top-level check and then the subchapter check, appending
an entry for each match. -/
def tocLineEntries (rawLine : List Char) : List TocEntry :=
  if (stripL rawLine).isEmpty then []
  else tocLineTop (stripL rawLine) ++ tocLineSub (stripL rawLine)

/-- `toc_indicators` of `_extract_table_of_contents`. -/
def toc_indicators : List (List Char) :=
  ["table of contents".data, "contents".data, "chapter".data, "section".data]

/-- The page loop of `_extract_table_of_contents`: skip empty pages, parse
lines of pages containing a TOC indicator, and stop as soon as an
indicator has fired and at least one entry has accumulated. -/
def tocScan : List (List Char) → Bool → List TocEntry → List TocEntry
  | [], _, acc => acc
  | pg :: rest, found, acc =>
    if pg.isEmpty then tocScan rest found acc
    else
      if toc_indicators.any (fun ind => containsSub (toLowerL pg) ind) then
        -- indicator hit: this page's line entries are appended and
        -- `toc_found` becomes true; stop when entries have accumulated
        if (acc ++ (splitLines pg).flatMap tocLineEntries).isEmpty then
          tocScan rest true (acc ++ (splitLines pg).flatMap tocLineEntries)
        else acc ++ (splitLines pg).flatMap tocLineEntries
      else
        if found && !acc.isEmpty then acc else tocScan rest found acc

/-- `^\s*chapter\s+(\d+)` -/
def hPat1 : RE :=
  .seq .bol (.seq (.starG isPySpace)
    (.seq (litRE "chapter".data) (.seq (.plusG isPySpace) (.grp 1 (.plusG isDigitC)))))

/-- `^\s*(\d+)\.\s+[A-Z][^.]*$` (matched against the lower-cased line, so
`[A-Z]` can never fire; kept faithful to the source). -/
def hPat2 : RE :=
  .seq .bol (.seq (.starG isPySpace)
    (.seq (.grp 1 (.plusG isDigitC)) (.seq dotC (.seq (.plusG isPySpace)
      (.seq (.cls (fun c => 'A' ≤ c && c ≤ 'Z'))
        (.seq (.starG (fun c => c != '.')) .eol))))))

/-- `^\s*unit\s+(\d+)` -/
def hPat3 : RE :=
  .seq .bol (.seq (.starG isPySpace)
    (.seq (litRE "unit".data) (.seq (.plusG isPySpace) (.grp 1 (.plusG isDigitC)))))

/-- `^\s*section\s+(\d+)` -/
def hPat4 : RE :=
  .seq .bol (.seq (.starG isPySpace)
    (.seq (litRE "section".data) (.seq (.plusG isPySpace) (.grp 1 (.plusG isDigitC)))))

/-- `chapter_patterns` of `_infer_chapters_from_headings`. -/
def chapter_patterns : List RE := [hPat1, hPat2, hPat3, hPat4]

/-- The line loop of `_infer_chapters_from_headings` on one page:
`pageIdx` is the 0-based page index, `cnt` the running chapter counter;
an emitted entry takes the next counter value and `page_start = pageIdx + 1`
(the parsed number in the line is ignored). -/
def headingLinesFold : List (List Char) → Nat → Nat → List TocEntry × Nat
  | [], _, cnt => ([], cnt)
  | l :: ls, pageIdx, cnt =>
    let line := stripL l
    if line.length < 5 || line.length > 100 then headingLinesFold ls pageIdx cnt
    else if chapter_patterns.any (fun p => (reMatch p (toLowerL line)).isSome) then
      let rest := headingLinesFold ls pageIdx (cnt + 1)
      (⟨Nat.toDigits 10 (cnt + 1), pyTitle line, pageIdx + 1, 1⟩ :: rest.1, rest.2)
    else headingLinesFold ls pageIdx cnt

/-- The page loop of `_infer_chapters_from_headings` (empty pages advance
the page index but yield nothing). -/
def inferAux : List (List Char) → Nat → Nat → List TocEntry
  | [], _, _ => []
  | pg :: rest, pageIdx, cnt =>
    if pg.isEmpty then inferAux rest (pageIdx + 1) cnt
    else
      let r := headingLinesFold (splitLines pg) pageIdx cnt
      r.1 ++ inferAux rest (pageIdx + 1) r.2

/-- `PDFProcessor._infer_chapters_from_headings` (first 50 pages). -/
def infer_chapters_from_headings (pages : List (List Char)) : List TocEntry :=
  inferAux (pages.take 50) 0 0

/-- `PDFProcessor._extract_table_of_contents` (first 20 pages, then the
heading-inference fallback when no TOC entry was found). -/
def extract_table_of_contents (pages : List (List Char)) : List TocEntry :=
  if (tocScan (pages.take 20) false []).isEmpty then
    infer_chapters_from_headings pages
  else tocScan (pages.take 20) false []

/-! ## Page-to-chapter resolver (`_find_chapter_for_page`) -/

/-- A stored chapter row (the fields the resolver reads). -/
structure ChapterRec where
  title : List Char
  page_start : Nat
deriving DecidableEq, Repr

/-- `self.db.query(Chapter).filter(Chapter.page_start <= page_num)
.order_by(Chapter.page_start.desc()).first()` over the chapter rows in
insertion (recovery) order: keep the qualifying row with the greatest
`page_start`, a later row replacing an equal one. -/
def pickLater (acc : Option ChapterRec) (c : ChapterRec) : Option ChapterRec :=
  match acc with
  | none => some c
  | some b => if b.page_start ≤ c.page_start then some c else some b

def find_chapter_for_page (chapters : List ChapterRec) (p : Nat) : Option ChapterRec :=
  (chapters.filter (fun c => c.page_start ≤ p)).foldl pickLater none

/-- One step of the specification-side selection: keep the already selected
later entry `b` unless the earlier entry `c` is strictly greater. -/
def laterMax (c : ChapterRec) : Option ChapterRec → Option ChapterRec
  | none => some c
  | some b => if b.page_start < c.page_start then some c else some b

/-- Specification-side selector, following the spec's words: among the
listed entries, the one with the greatest `page_start`, ties broken toward
the last in order; `none` on the empty list. -/
def argmaxLast : List ChapterRec → Option ChapterRec
  | [] => none
  | c :: t => laterMax c (argmaxLast t)

/-! ## Pipeline orchestrator (`PDFProcessor.process_pdf`) -/

/-- Document processing states. -/
inductive PStatus where
  | pending
  | processing
  | completed
  | failed
deriving DecidableEq, Repr

/-- Abstract run environment for one `process_pdf` call: which of its
fallible steps succeed.  TOC extraction and chapter storage catch their own
exceptions and never raise; per-question storage errors and the questions
batch-commit error are caught inside `extract_questions_from_text`; a chunk
fails only when per-page text extraction or question parsing raises. -/
structure PipeEnv where
  textbookFound : Bool
  commitProcessingOk : Bool
  metadataOk : Bool
  commitPagesOk : Bool
  chunksOk : List Bool
  commitCompletedOk : Bool
  handlerTextbookFound : Bool
  commitFailedOk : Bool

/-- The `try` body of `process_pdf`: the sequence of successfully committed
status writes, paired with `true` when the body ran to completion.  A
status assignment whose commit raises is never observed. -/
def processTryBody (env : PipeEnv) : List PStatus × Bool :=
  if !env.textbookFound then ([], false)
  else if !env.commitProcessingOk then ([], false)
  else if !env.metadataOk then ([PStatus.processing], false)
  else if !env.commitPagesOk then ([PStatus.processing], false)
  else if !(env.chunksOk.all (fun b => b)) then ([PStatus.processing], false)
  else if !env.commitCompletedOk then ([PStatus.processing], false)
  else ([PStatus.processing, PStatus.completed], true)

/-- The `except` handler: re-query the textbook and commit `failed`. -/
def processHandler (env : PipeEnv) : List PStatus :=
  if env.handlerTextbookFound && env.commitFailedOk then [PStatus.failed] else []

/-- `process_pdf` as the sequence of committed status writes of one run. -/
def process_pdf_trace (env : PipeEnv) : List PStatus :=
  match processTryBody env with
  | (t, true) => t
  | (t, false) => t ++ processHandler env

/-- Forward rank of a status in `pending → processing → completed | failed`. -/
def statusRank : PStatus → Nat
  | .pending => 0
  | .processing => 1
  | .completed => 2
  | .failed => 2

/-- The chunk loop of `extract_questions_from_text`, with the per-page
parser passed in (the source calls `self._extract_questions_from_page`):
empty-text pages are skipped; a parser exception propagates — there is no
per-page handler — while per-question storage runs under its own
`try`/`except`.  Returns the stored `(page, text)` records. -/
def extract_questions_from_text (parse : List Char → Except String (List (List Char))) :
    List (Nat × List Char) → Except String (List (Nat × List Char))
  | [] => .ok []
  | (n, t) :: rest =>
    if t.isEmpty then extract_questions_from_text parse rest
    else
      match parse t with
      | .error e => .error e
      | .ok qs =>
        match extract_questions_from_text parse rest with
        | .error e => .error e
        | .ok stored => .ok (qs.map (fun q => (n, q)) ++ stored)

/-! ## Concrete inputs used by the scenario theorems -/

/-- Scenario A page text. -/
def scenAPage : List Char :=
  "Exercises\n1. What is gravity?\n2. Explain inertia in detail.".data

/-- Scenario B page text (no question mark). -/
def scenBPage : List Char := "The cat sat. Random sentence.".data

/-- An exercise-section page whose buffers contain a `?` without ending
with one, or are shorter than 10 characters. -/
def exShortPage : List Char := "Exercises\n1. Why me? No.\n2. x?".data

/-- A scattered-mode page with one valid standalone question. -/
def scatteredPage : List Char := "What is the chapter about?".data

/-- Scenario C page text. -/
def scenCPage : List Char := "Chapter 2: Thermodynamics....45".data

/-- A TOC page whose parsed page numbers are 9 then 0. -/
def tocBadPage : List Char := "Contents\n2. Beta..9\n3. Alpha..0".data

/-- A TOC page with a well-formed subchapter line (leading whitespace,
dotted number, title, dots, page number). -/
def tocSubLevelPage : List Char := "Contents\n  1.2 Newton Laws.....7".data

/-- A page whose only line matches the `chapter N` heading pattern. -/
def headingPage : List Char := "Chapter 1 Intro".data

/-- Scenario D outline rows. -/
def chsD : List ChapterRec := [⟨"A".data, 1⟩, ⟨"B".data, 50⟩, ⟨"C".data, 120⟩]

/-- Two chapter rows sharing a start page. -/
def chsTie : List ChapterRec := [⟨"X".data, 50⟩, ⟨"Y".data, 50⟩]

/-- A per-page parser that raises on the page text `BOOM`. -/
def parseBoom : List Char → Except String (List (List Char)) :=
  fun t => if t = "BOOM".data then .error "IndexError" else .ok [t]

/-- Three pages, the middle one making `parseBoom` raise. -/
def boomPages : List (Nat × List Char) :=
  [(1, "q1?".data), (2, "BOOM".data), (3, "q3?".data)]

/-- A run environment whose only failure is a raising chunk. -/
def envBoom : PipeEnv := ⟨true, true, true, true, [false], true, true, true⟩

/-! ## Helper lemmas -/

theorem mem_of_endsWithC {l : List Char} {c : Char} (h : endsWithC l c = true) :
    c ∈ l := by
  unfold endsWithC at h
  rw [beq_iff_eq] at h
  rcases List.getLast?_eq_some_iff.mp h with ⟨ys, rfl⟩
  simp

theorem mem_of_mem_stripL {l : List Char} {c : Char} (h : c ∈ stripL l) : c ∈ l := by
  unfold stripL at h
  rw [List.mem_reverse] at h
  have h2 := (List.dropWhile_sublist _).mem h
  rw [List.mem_reverse] at h2
  exact (List.dropWhile_sublist _).mem h2

theorem mem_dropWhile_of_neg {p : Char → Bool} {l : List Char} {c : Char}
    (h : c ∈ l) (hc : p c = false) : c ∈ l.dropWhile p := by
  induction l with
  | nil => simp at h
  | cons a t ih =>
    rw [List.dropWhile_cons]
    by_cases hpa : p a = true
    · simp only [hpa, if_true]
      rcases List.mem_cons.mp h with rfl | hmem
      · rw [hc] at hpa; exact absurd hpa (by simp)
      · exact ih hmem
    · simp only [hpa, if_false]
      exact h

theorem mem_stripL_of_neg {l : List Char} {c : Char}
    (h : c ∈ l) (hc : isPySpace c = false) : c ∈ stripL l := by
  unfold stripL
  rw [List.mem_reverse]
  refine mem_dropWhile_of_neg ?_ hc
  rw [List.mem_reverse]
  exact mem_dropWhile_of_neg h hc

theorem mem_of_mem_sliceL {l : List Char} {a b : Nat} {c : Char}
    (h : c ∈ sliceL l a b) : c ∈ l :=
  List.drop_subset _ _ (List.take_subset _ _ h)

theorem mem_of_mem_grpStr {m : RMatch} {g : Nat} {s : List Char} {c : Char}
    (h : c ∈ grpStr m g s) : c ∈ s := by
  unfold grpStr at h
  cases hl : m.caps.lookup g with
  | none => rw [hl] at h; simp at h
  | some ab =>
    rw [hl] at h
    exact mem_of_mem_sliceL h

theorem mem_of_mem_matchTextSel {m : RMatch} {s : List Char} {c : Char}
    (h : c ∈ matchTextSel m s) : c ∈ s := by
  unfold matchTextSel at h
  cases hl : m.caps.lookup 1 with
  | none => rw [hl] at h; exact mem_of_mem_sliceL h
  | some ab =>
    rw [hl] at h
    exact mem_of_mem_sliceL h

theorem mem_of_mem_splitLinesAux {s : List Char} {part : List Char} {c : Char} :
    ∀ {cur : List Char}, part ∈ splitLinesAux s cur → c ∈ part → c ∈ s ∨ c ∈ cur := by
  induction s with
  | nil =>
    intro cur hp hc
    simp only [splitLinesAux, List.mem_singleton] at hp
    subst hp
    exact Or.inr (List.mem_reverse.mp hc)
  | cons a t ih =>
    intro cur hp hc
    rw [splitLinesAux] at hp
    by_cases ha : a = '\n'
    · simp only [ha, if_true] at hp
      rcases List.mem_cons.mp hp with rfl | hp2
      · exact Or.inr (List.mem_reverse.mp hc)
      · rcases ih hp2 hc with h1 | h2
        · exact Or.inl (List.mem_cons_of_mem _ h1)
        · simp at h2
    · simp only [ha, if_false] at hp
      rcases ih hp hc with h1 | h2
      · exact Or.inl (List.mem_cons_of_mem _ h1)
      · rcases List.mem_cons.mp h2 with rfl | h3
        · exact Or.inl (List.mem_cons_self _ _)
        · exact Or.inr h3

theorem mem_line_of_splitLines {t part : List Char} {c : Char}
    (hp : part ∈ splitLines t) (hc : c ∈ part) : c ∈ t := by
  rcases mem_of_mem_splitLinesAux hp hc with h | h
  · exact h
  · simp at h

theorem not_mem_of_countChar_zero {l : List Char} {c : Char}
    (h : countChar l c = 0) : c ∉ l := by
  intro hc
  unfold countChar at h
  rw [List.length_eq_zero] at h
  have h2 := List.filter_eq_nil_iff.mp h c hc
  simp at h2

theorem mem_of_countChar_pos {l : List Char} {c : Char}
    (h : 0 < countChar l c) : c ∈ l := by
  unfold countChar at h
  rw [List.length_pos] at h
  rcases List.exists_mem_of_ne_nil _ h with ⟨x, hx⟩
  have h2 := List.mem_filter.mp hx
  have h3 : x = c := by simpa using h2.2
  exact h3 ▸ h2.1

theorem is_valid_question_facts {t : List Char} (h : is_valid_question t = true) :
    endsWithC t '?' = true ∧ 10 ≤ t.length := by
  unfold is_valid_question at h
  split at h
  · exact absurd h (by simp)
  · split at h
    · exact absurd h (by simp)
    · rename_i h1 h2
      constructor
      · simpa using h2
      · simp only [Bool.or_eq_true, List.isEmpty_iff, decide_eq_true_eq] at h1
        omega

theorem mem_dedupQs {l : List RawQ} {q : RawQ} :
    ∀ {seen : List (List Char)}, q ∈ dedupQs seen l → q ∈ l := by
  induction l with
  | nil => intro seen h; simp [dedupQs] at h
  | cons a t ih =>
    intro seen h
    rw [dedupQs] at h
    split at h
    · exact List.mem_cons_of_mem _ (ih h)
    · rcases List.mem_cons.mp h with rfl | h2
      · exact List.mem_cons_self _ _
      · exact List.mem_cons_of_mem _ (ih h2)

theorem scattered_shape {text : List Char} {lines : List (List Char)} {q : RawQ}
    (h : q ∈ extract_scattered_questions text lines) :
    is_valid_question q.text = true ∧ ∀ c ∈ q.text, c ∈ text := by
  unfold extract_scattered_questions at h
  have hraw := mem_dedupQs h
  rcases List.mem_flatMap.mp hraw with ⟨p, _, hq⟩
  rcases List.mem_filterMap.mp hq with ⟨m, _, hm⟩
  have hm2 : (if is_valid_question (stripL (matchTextSel m text)) = true then
      some (⟨stripL (matchTextSel m text), none⟩ : RawQ) else none) = some q := hm
  split at hm2
  · rename_i hval
    cases hm2
    refine ⟨hval, ?_⟩
    intro c hcq
    exact mem_of_mem_matchTextSel (mem_of_mem_stripL hcq)
  · exact absurd hm2 (by simp)

theorem exerciseLoop_text_has_qmark {ls : List (List Char)} {q : RawQ} :
    ∀ {cur : List Char} {num : Option (List Char)},
      q ∈ exerciseLoop ls cur num → '?' ∈ q.text := by
  induction ls with
  | nil =>
    intro cur num h
    rw [exerciseLoop] at h
    split at h
    · rename_i hg
      rcases List.mem_singleton.mp h with rfl
      have hq : '?' ∈ cur := by
        have := (Bool.and_eq_true _ _).mp hg
        simpa [List.contains, List.elem_eq_mem] using this.2
      exact mem_stripL_of_neg hq (by decide)
    · simp at h
  | cons l ls ih =>
    intro cur num h
    rw [exerciseLoop] at h
    split at h
    · exact ih h
    · split at h
      · rcases List.mem_append.mp h with h1 | h2
        · split at h1
          · rename_i hg
            rcases List.mem_singleton.mp h1 with rfl
            have hq : '?' ∈ cur := by
              have := (Bool.and_eq_true _ _).mp hg
              simpa [List.contains, List.elem_eq_mem] using this.2
            exact mem_stripL_of_neg hq (by decide)
          · simp at h1
        · exact ih h2
      · split at h
        · exact ih h
        · exact ih h

theorem exerciseLoop_eq_nil {ls : List (List Char)} :
    ∀ {cur : List Char} {num : Option (List Char)},
      (∀ l ∈ ls, '?' ∉ l) → '?' ∉ cur → exerciseLoop ls cur num = [] := by
  induction ls with
  | nil =>
    intro cur num _ hcur
    rw [exerciseLoop]
    have hc : cur.contains '?' = false := by
      simp [List.contains, List.elem_eq_mem, hcur]
    simp [hc, hcur]
  | cons l ls ih =>
    intro cur num hls hcur
    have hl : '?' ∉ l := hls l (List.mem_cons_self _ _)
    have hls2 : ∀ x ∈ ls, '?' ∉ x := fun x hx => hls x (List.mem_cons_of_mem _ hx)
    have hline : '?' ∉ stripL l := fun hx => hl (mem_of_mem_stripL hx)
    have hc : cur.contains '?' = false := by
      simp [List.contains, List.elem_eq_mem, hcur]
    rw [exerciseLoop]
    split
    · exact ih hls2 hcur
    · split
      · rename_i m _
        have hg : '?' ∉ grpStr m 2 (stripL l) := fun hx => hline (mem_of_mem_grpStr hx)
        simp [hc, hcur, ih hls2 hg]
      · split
        · refine ih hls2 ?_
          intro hx
          rcases List.mem_append.mp hx with h1 | h2
          · exact hcur h1
          · rcases List.mem_cons.mp h2 with h3 | h4
            · exact absurd h3 (by decide)
            · exact hline h4
        · exact ih hls2 hcur

theorem dropWhile_append_singleton {p : Char → Bool} {a : Char} (ha : p a = false) :
    ∀ u : List Char, ∃ w, (u ++ [a]).dropWhile p = w ++ [a] := by
  intro u
  induction u with
  | nil => exact ⟨[], by simp [List.dropWhile, ha]⟩
  | cons b u ih =>
    by_cases hb : p b = true
    · rcases ih with ⟨w, hw⟩
      refine ⟨w, ?_⟩
      rw [List.cons_append, List.dropWhile_cons, if_pos hb, hw]
    · refine ⟨b :: u, ?_⟩
      rw [List.cons_append, List.dropWhile_cons, if_neg hb]

theorem stripL_head_not_space {l : List Char} {a : Char} {t : List Char}
    (h : stripL l = a :: t) : isPySpace a = false := by
  unfold stripL at h
  cases hm : l.dropWhile isPySpace with
  | nil => rw [hm] at h; simp at h
  | cons b u =>
    have hne : l.dropWhile isPySpace ≠ [] := by rw [hm]; simp
    have hb := List.head_dropWhile_not isPySpace l hne
    rw [hm] at h
    have hb2 : isPySpace b = false := by
      have hhead : (l.dropWhile isPySpace).head hne = b := by
        simp [hm]
      rw [hhead] at hb
      exact hb
    rcases dropWhile_append_singleton hb2 u.reverse with ⟨w, hw⟩
    rw [show (b :: u).reverse = u.reverse ++ [b] from by simp] at h
    rw [hw, List.reverse_append] at h
    simp only [List.reverse_cons, List.reverse_nil, List.nil_append,
      List.singleton_append, List.cons.injEq] at h
    rw [← h.1]
    exact hb2

theorem reMatch_leading_space_none {r : RE} {s : List Char}
    (h : ∀ a t, s = a :: t → isPySpace a = false) :
    reMatch (.seq (.plusG isPySpace) r) s = none := by
  unfold reMatch
  have hz : mtch (.seq (.plusG isPySpace) r) s 0 []
      (fun j cs => some (j, cs)) = none := by
    rw [mtch, mtch]
    cases s with
    | nil => simp [runLen]
    | cons a t => simp [runLen, h a t rfl]
  rw [hz]

theorem tocLineSub_nil (rawLine : List Char) : tocLineSub (stripL rawLine) = [] := by
  unfold tocLineSub
  have hnone : reMatch tocSubPat (stripL rawLine) = none := by
    unfold tocSubPat
    apply reMatch_leading_space_none
    intro a t ht
    exact stripL_head_not_space ht
  rw [hnone]

theorem tocLineEntries_level_one {line : List Char} {e : TocEntry}
    (h : e ∈ tocLineEntries line) : e.level = 1 := by
  unfold tocLineEntries at h
  split at h
  · simp at h
  · rw [tocLineSub_nil, List.append_nil] at h
    unfold tocLineTop at h
    split at h
    · rcases List.mem_singleton.mp h with rfl
      rfl
    · simp at h

theorem tocScan_level_one {pages : List (List Char)} {e : TocEntry} :
    ∀ {found : Bool} {acc : List TocEntry},
      (∀ x ∈ acc, x.level = 1) → e ∈ tocScan pages found acc → e.level = 1 := by
  induction pages with
  | nil =>
    intro found acc hacc h
    rw [tocScan] at h
    exact hacc e h
  | cons pg rest ih =>
    intro found acc hacc h
    rw [tocScan] at h
    have happ : ∀ x ∈ acc ++ (splitLines pg).flatMap tocLineEntries, x.level = 1 := by
      intro x hx
      rcases List.mem_append.mp hx with h1 | h2
      · exact hacc x h1
      · rcases List.mem_flatMap.mp h2 with ⟨l, _, hl⟩
        exact tocLineEntries_level_one hl
    split at h
    · exact ih hacc h
    · split at h
      · split at h
        · exact ih happ h
        · exact happ e h
      · split at h
        · exact hacc e h
        · exact ih hacc h

theorem headingLinesFold_mem {ls : List (List Char)} {pageIdx : Nat} {e : TocEntry} :
    ∀ {cnt : Nat}, e ∈ (headingLinesFold ls pageIdx cnt).1 →
      e.page_start = pageIdx + 1 ∧ e.level = 1 := by
  induction ls with
  | nil => intro cnt h; simp [headingLinesFold] at h
  | cons l ls ih =>
    intro cnt h
    rw [headingLinesFold] at h
    split at h
    · exact ih h
    · split at h
      · rcases List.mem_cons.mp h with rfl | h2
        · exact ⟨rfl, rfl⟩
        · exact ih h2
      · exact ih h

theorem chain'_le_of_const {l : List TocEntry} {n : Nat}
    (h : ∀ e ∈ l, e.page_start = n) :
    List.Chain' (fun a b => a.page_start ≤ b.page_start) l := by
  induction l with
  | nil => exact List.chain'_nil
  | cons a t ih =>
    rw [List.chain'_cons']
    refine ⟨?_, ih (fun e he => h e (List.mem_cons_of_mem _ he))⟩
    intro b hb
    rw [h a (List.mem_cons_self _ _),
      h b (List.mem_cons_of_mem _ (List.mem_of_mem_head? hb))]

theorem inferAux_facts (ps : List (List Char)) :
    ∀ (pageIdx cnt : Nat),
      (∀ e ∈ inferAux ps pageIdx cnt,
        (pageIdx + 1 ≤ e.page_start ∧ 1 ≤ e.page_start) ∧ e.level = 1) ∧
      List.Chain' (fun a b => a.page_start ≤ b.page_start) (inferAux ps pageIdx cnt) := by
  induction ps with
  | nil =>
    intro pageIdx cnt
    constructor
    · intro e he; rw [inferAux] at he; simp at he
    · rw [inferAux]; exact List.chain'_nil
  | cons pg rest ih =>
    intro pageIdx cnt
    rw [inferAux]
    split
    · constructor
      · intro e he
        have h2 := (ih (pageIdx + 1) cnt).1 e he
        exact ⟨⟨by omega, by omega⟩, h2.2⟩
      · exact (ih (pageIdx + 1) cnt).2
    · constructor
      · intro e he
        rcases List.mem_append.mp he with h1 | h2
        · have h3 := headingLinesFold_mem h1
          exact ⟨⟨by omega, by omega⟩, h3.2⟩
        · have h3 := (ih (pageIdx + 1) _).1 e h2
          exact ⟨⟨by omega, by omega⟩, h3.2⟩
      · rw [List.chain'_append]
        refine ⟨chain'_le_of_const (fun e he => (headingLinesFold_mem he).1), ?_, ?_⟩
        · exact (ih (pageIdx + 1) _).2
        · intro x hx y hy
          have hxm := (headingLinesFold_mem (List.mem_of_mem_getLast? hx)).1
          have hym := ((ih (pageIdx + 1) _).1 y (List.mem_of_mem_head? hy)).1
          omega

theorem splitWsAux_ne_nil {t : List Char} :
    ∀ {cur : List Char}, ((∃ c ∈ t, isPySpace c = false) ∨ cur ≠ []) →
      splitWsAux t cur ≠ [] := by
  induction t with
  | nil =>
    intro cur h
    rw [splitWsAux]
    rcases h with ⟨c, hc, _⟩ | hcur
    · simp at hc
    · simp [List.isEmpty_iff, hcur]
  | cons a t ih =>
    intro cur h
    rw [splitWsAux]
    by_cases ha : isPySpace a = true
    · rw [if_pos ha]
      by_cases hcur : cur.isEmpty
      · rw [if_pos hcur]
        apply ih
        left
        rcases h with ⟨c, hc, hcf⟩ | hne
        · rcases List.mem_cons.mp hc with rfl | h2
          · rw [ha] at hcf; exact absurd hcf (by simp)
          · exact ⟨c, h2, hcf⟩
        · exact absurd (List.isEmpty_iff.mp hcur) hne
      · rw [if_neg hcur]; simp
    · rw [if_neg ha]
      apply ih
      right
      simp

theorem questionDensityCheck_total (t : List Char) :
    (questionDensityCheck t).isSome = true := by
  have hdef : questionDensityCheck t =
      (if 3 ≤ countChar t '?' ∧ 0 < t.length then
        (if (splitWs t).length = 0 then none
         else some (decide
           ((countChar t '?' : ℚ) / (((splitWs t).length : Nat) : ℚ) > 1 / 20)))
       else some false) := rfl
  rw [hdef]
  split
  · rename_i hcond
    split
    · rename_i hw
      exfalso
      have hq : '?' ∈ t := mem_of_countChar_pos (by omega)
      have hne := @splitWsAux_ne_nil t []
        (Or.inl ⟨'?', hq, by decide⟩)
      rw [List.length_eq_zero] at hw
      exact hne hw
    · rfl
  · rfl

theorem argmaxLast_eq_none {l : List ChapterRec} (h : argmaxLast l = none) :
    l = [] := by
  cases l with
  | nil => rfl
  | cons c t =>
    rw [argmaxLast] at h
    cases hr : argmaxLast t with
    | none => rw [hr] at h; simp [laterMax] at h
    | some r =>
      rw [hr] at h
      simp only [laterMax] at h
      split at h <;> simp at h

theorem argmaxLast_facts (l : List ChapterRec) :
    ∀ r, argmaxLast l = some r →
      r ∈ l ∧ ∀ c ∈ l, c.page_start ≤ r.page_start := by
  induction l with
  | nil => intro r h; simp [argmaxLast] at h
  | cons c t ih =>
    intro r h
    rw [argmaxLast] at h
    cases hr : argmaxLast t with
    | none =>
      rw [hr] at h
      simp only [laterMax] at h
      rcases Option.some.inj h with rfl
      have ht := argmaxLast_eq_none hr
      subst ht
      refine ⟨List.mem_cons_self _ _, ?_⟩
      intro x hx
      rcases List.mem_cons.mp hx with rfl | h2
      · exact Nat.le_refl _
      · simp at h2
    | some r0 =>
      rw [hr] at h
      simp only [laterMax] at h
      rcases ih r0 hr with ⟨hmem, hbound⟩
      split at h
      · rename_i hlt
        rcases Option.some.inj h with rfl
        refine ⟨List.mem_cons_self _ _, ?_⟩
        intro x hx
        rcases List.mem_cons.mp hx with rfl | h2
        · exact Nat.le_refl _
        · have := hbound x h2
          omega
      · rename_i hge
        rcases Option.some.inj h with rfl
        refine ⟨List.mem_cons_of_mem _ hmem, ?_⟩
        intro x hx
        rcases List.mem_cons.mp hx with rfl | h2
        · omega
        · exact hbound x h2

theorem foldl_pickLater_some (l : List ChapterRec) :
    ∀ b : ChapterRec, l.foldl pickLater (some b) = argmaxLast (b :: l) := by
  induction l with
  | nil => intro b; rfl
  | cons c t ih =>
    intro b
    rw [List.foldl_cons]
    by_cases hbc : b.page_start ≤ c.page_start
    · rw [show pickLater (some b) c = some c from by simp [pickLater, hbc]]
      rw [ih c]
      cases hy : argmaxLast (c :: t) with
      | none => exact absurd (argmaxLast_eq_none hy) (by simp)
      | some y =>
        have hcy := (argmaxLast_facts _ y hy).2 c (List.mem_cons_self _ _)
        rw [show argmaxLast (b :: c :: t) = laterMax b (argmaxLast (c :: t)) from rfl,
          hy]
        simp only [laterMax]
        rw [if_neg (by omega)]
    · rw [show pickLater (some b) c = some b from by simp [pickLater, hbc]]
      rw [ih b]
      rw [show argmaxLast (b :: c :: t) = laterMax b (laterMax c (argmaxLast t)) from
        rfl]
      rw [show argmaxLast (b :: t) = laterMax b (argmaxLast t) from rfl]
      cases hx : argmaxLast t with
      | none =>
        simp only [laterMax]
        rw [if_pos (by omega)]
      | some x =>
        simp only [laterMax]
        by_cases hxc : x.page_start < c.page_start
        · rw [if_pos hxc]
          simp only [laterMax]
          rw [if_pos (by omega), if_pos (by omega)]
        · rw [if_neg hxc]

theorem find_eq_argmaxLast (chs : List ChapterRec) (p : Nat) :
    find_chapter_for_page chs p =
      argmaxLast (chs.filter (fun c => c.page_start ≤ p)) := by
  unfold find_chapter_for_page
  cases hl : chs.filter (fun c => c.page_start ≤ p) with
  | nil => rfl
  | cons c t =>
    rw [List.foldl_cons, show pickLater none c = some c from rfl,
      foldl_pickLater_some t c]

/-! ## Claim theorems -/

/-- Claim C1, counterexample: a page whose question parsing raises is NOT
handled at page granularity — `extract_questions_from_text` propagates the
error (the page after it is never processed, nothing is stored), and the
orchestrator run with a failing chunk commits `processing` then `failed`. -/
theorem c1_page_error_counterexample :
    extract_questions_from_text parseBoom boomPages = .error "IndexError" ∧
    process_pdf_trace envBoom = [PStatus.processing, PStatus.failed] :=
  ⟨rfl, by decide⟩

/-- Claim C1, amended: an exception raised while parsing a single page's
questions is not caught at page granularity — it propagates out of the
chunk loop as the first failing page's error, pages after it are not
processed, and the orchestrator transitions the document to `failed`. -/
theorem c1_page_error_amended :
    (∀ (parse : List Char → Except String (List (List Char)))
      (pre : List (Nat × List Char)) (pn : Nat) (t : List Char)
      (post : List (Nat × List Char)) (e : String),
      (∀ q ∈ pre, q.2.isEmpty = true ∨ ∃ v, parse q.2 = .ok v) →
      t.isEmpty = false → parse t = .error e →
      extract_questions_from_text parse (pre ++ (pn, t) :: post) = .error e) ∧
    (∀ env : PipeEnv,
      env.textbookFound = true → env.commitProcessingOk = true →
      env.metadataOk = true → env.commitPagesOk = true →
      env.chunksOk.all (fun b => b) = false →
      env.handlerTextbookFound = true → env.commitFailedOk = true →
      process_pdf_trace env = [PStatus.processing, PStatus.failed]) := by
  constructor
  · intro parse pre pn t post e hpre ht he
    induction pre with
    | nil =>
      rw [List.nil_append, extract_questions_from_text, if_neg (by simp [ht]), he]
    | cons q0 pre ih =>
      rw [List.cons_append, extract_questions_from_text]
      rcases hpre q0 (List.mem_cons_self _ _) with hq0 | ⟨v, hv⟩
      · rw [if_pos (by simp [hq0])]
        exact ih (fun q hq => hpre q (List.mem_cons_of_mem _ hq))
      · by_cases hq0e : q0.2.isEmpty = true
        · rw [if_pos (by simp [hq0e])]
          exact ih (fun q hq => hpre q (List.mem_cons_of_mem _ hq))
        · rw [if_neg (by simp [hq0e]), hv]
          rw [ih (fun q hq => hpre q (List.mem_cons_of_mem _ hq))]
  · intro env h1 h2 h3 h4 h5 h6 h7
    simp [process_pdf_trace, processTryBody, processHandler,
      h1, h2, h3, h4, h5, h6, h7]

/-- Claim C1, witness: the amended statement applied to `parseBoom` on
three pages with the middle one raising, and to `envBoom`. -/
theorem c1_page_error_witness :
    extract_questions_from_text parseBoom
      ([(1, "q1?".data)] ++ (2, "BOOM".data) :: [(3, "q3?".data)]) =
      .error "IndexError" ∧
    process_pdf_trace envBoom = [PStatus.processing, PStatus.failed] :=
  ⟨c1_page_error_amended.1 parseBoom [(1, "q1?".data)] 2 "BOOM".data
      [(3, "q3?".data)] "IndexError"
      (by
        intro q hq
        rcases List.mem_singleton.mp hq with rfl
        exact Or.inr ⟨["q1?".data], rfl⟩)
      (by decide) rfl,
   c1_page_error_amended.2 envBoom rfl rfl rfl rfl (by decide) rfl rfl⟩

/-- Claim C2, counterexample: on the exercise-section page `exShortPage`
the extractor emits "Why me? No." (which does not end with '?') and "x?"
(whose length 2 is below 10). -/
theorem c2_candidate_shape_counterexample :
    (extract_questions_from_page exShortPage 1).map (fun q => q.text) =
      ["Why me? No.".data, "x?".data] ∧
    endsWithC "Why me? No.".data '?' = false ∧
    ("x?".data : List Char).length < 10 :=
  ⟨by decide, by decide, by decide⟩

/-- Claim C2, amended: the trimmed-'?'-suffix and length-at-least-10
guarantee holds for every candidate of a page handled in scattered mode
(each passes the validity filter); a candidate of a page handled in
exercise-section mode is only guaranteed to contain a '?'. -/
theorem c2_candidate_shape_amended :
    (∀ (t : List Char) (n : Nat) (pq : PageQuestion),
      is_exercise_section t = false → pq ∈ extract_questions_from_page t n →
      endsWithC pq.text '?' = true ∧ 10 ≤ pq.text.length) ∧
    (∀ (t : List Char) (lines : List (List Char)) (q : RawQ),
      q ∈ extract_from_exercise_section t lines → '?' ∈ q.text) := by
  constructor
  · intro t n pq hmode hpq
    unfold extract_questions_from_page at hpq
    rw [hmode] at hpq
    simp only [Bool.false_eq_true, if_false] at hpq
    rcases List.mem_map.mp hpq with ⟨q, hq, rfl⟩
    exact is_valid_question_facts (scattered_shape hq).1
  · intro t lines q hq
    exact exerciseLoop_text_has_qmark hq

/-- Claim C2, witness: the amended statement applied to the scattered-mode
page `scatteredPage` (its one candidate) and to the exercise-mode page
`exShortPage` (its first candidate). -/
theorem c2_candidate_shape_witness :
    (endsWithC "What is the chapter about?".data '?' = true ∧
      10 ≤ ("What is the chapter about?".data : List Char).length) ∧
    '?' ∈ ("Why me? No.".data : List Char) :=
  ⟨c2_candidate_shape_amended.1 scatteredPage 1
      ⟨"What is the chapter about?".data, none,
        "What is the chapter about?".data, "short_answer".data⟩
      (by decide) (by decide),
   c2_candidate_shape_amended.2 exShortPage (splitLines exShortPage)
      ⟨"Why me? No.".data, some "1".data⟩ (by decide)⟩

/-- Claim C3, counterexample: Scenario A yields exactly ONE candidate —
"Explain inertia in detail." contains no '?' and is dropped by the flush
rule — not the two candidates the claim asserts. -/
theorem c3_scenario_a_counterexample :
    (extract_questions_from_page scenAPage 1).map (fun q => q.text) =
      ["What is gravity?".data] ∧
    ((extract_questions_from_page scenAPage 1).map (fun q => q.text) ≠
      ["What is gravity?".data, "Explain inertia in detail.".data]) :=
  ⟨by decide, by decide⟩

/-- Claim C3, amended: Scenario A yields exactly one candidate, "What is
gravity?", numbered 1, classified short_answer, with the whole page text
as context. -/
theorem c3_scenario_a_amended :
    extract_questions_from_page scenAPage 1 =
      [⟨"What is gravity?".data, some "1".data, scenAPage,
        "short_answer".data⟩] := by
  decide

/-- Claim C4: no level-2 outline entry is ever produced — the recovery
loop strips each line before testing the subchapter pattern, whose leading
whitespace requirement therefore never matches (its own comment announces
subchapter entries), so every recovered entry has level 1. -/
theorem c4_no_level_two :
    ∀ (pages : List (List Char)) (e : TocEntry),
      e ∈ extract_table_of_contents pages → e.level = 1 := by
  intro pages e h
  unfold extract_table_of_contents at h
  split at h
  · unfold infer_chapters_from_headings at h
    exact ((inferAux_facts _ 0 0).1 e h).2
  · exact tocScan_level_one (by intro x hx; simp at hx) h

/-- Claim C4, witness: on the concrete TOC page containing the well-formed
subchapter line "  1.2 Newton Laws.....7", the entry actually recovered
(by the top-level pattern) has level 1. -/
theorem c4_no_level_two_witness :
    (⟨"1".data, "2 Newton Laws".data, 7, 1⟩ : TocEntry).level = 1 :=
  c4_no_level_two [tocSubLevelPage] ⟨"1".data, "2 Newton Laws".data, 7, 1⟩
    (by decide)

/-- Claim C5: the resolver equals the specification selector (greatest
qualifying start page, ties toward the last entry in recovery order);
a returned entry is a qualifying member dominating every qualifying entry;
`none` is returned — without error — exactly when every entry starts after
the page; Scenario D resolves page 75 to the entry with start page 50, and
a tie resolves to the later row. -/
theorem c5_resolver :
    (∀ (chs : List ChapterRec) (p : Nat),
      find_chapter_for_page chs p =
        argmaxLast (chs.filter (fun c => c.page_start ≤ p))) ∧
    (∀ (chs : List ChapterRec) (p : Nat) (r : ChapterRec),
      find_chapter_for_page chs p = some r →
      r ∈ chs ∧ r.page_start ≤ p ∧
        ∀ c ∈ chs, c.page_start ≤ p → c.page_start ≤ r.page_start) ∧
    (∀ (chs : List ChapterRec) (p : Nat),
      find_chapter_for_page chs p = none → ∀ c ∈ chs, p < c.page_start) ∧
    find_chapter_for_page chsD 75 = some ⟨"B".data, 50⟩ ∧
    find_chapter_for_page chsD 0 = none ∧
    find_chapter_for_page chsTie 75 = some ⟨"Y".data, 50⟩ := by
  refine ⟨find_eq_argmaxLast, ?_, ?_, by decide, by decide, by decide⟩
  · intro chs p r h
    rw [find_eq_argmaxLast] at h
    rcases argmaxLast_facts _ r h with ⟨hmem, hbound⟩
    have hmf := List.mem_filter.mp hmem
    refine ⟨hmf.1, by simpa using hmf.2, ?_⟩
    intro c hc hcp
    exact hbound c (List.mem_filter.mpr ⟨hc, by simpa using hcp⟩)
  · intro chs p h c hc
    rw [find_eq_argmaxLast] at h
    have hnil := argmaxLast_eq_none h
    by_contra hle
    push_neg at hle
    have hmem : c ∈ chs.filter (fun x => x.page_start ≤ p) :=
      List.mem_filter.mpr ⟨hc, by simpa using hle⟩
    rw [hnil] at hmem
    simp at hmem

/-- Claim C5, witness: the membership and maximality facts instantiated at
Scenario D (page 75 resolves to the start-page-50 entry). -/
theorem c5_resolver_witness :
    (⟨"B".data, 50⟩ : ChapterRec) ∈ chsD ∧
    (⟨"B".data, 50⟩ : ChapterRec).page_start ≤ 75 :=
  ⟨(c5_resolver.2.1 chsD 75 ⟨"B".data, 50⟩ (by decide)).1,
   (c5_resolver.2.1 chsD 75 ⟨"B".data, 50⟩ (by decide)).2.1⟩

/-- Claim C6: every run of the orchestrator commits a strictly forward
sequence of states: `pending` is never written, nothing follows a write of
`completed` or `failed`, and no backward transition ever occurs. -/
theorem c6_status_monotone :
    ∀ env : PipeEnv,
      List.Chain' (fun a b => statusRank a < statusRank b)
        (process_pdf_trace env) ∧
      PStatus.pending ∉ process_pdf_trace env := by
  intro env
  obtain ⟨f1, f2, f3, f4, cho, f5, f6, f7⟩ := env
  cases hall : cho.all (fun b => b) <;>
    cases f1 <;> cases f2 <;> cases f3 <;> cases f4 <;> cases f5 <;>
    cases f6 <;> cases f7 <;>
    simp [process_pdf_trace, processTryBody, processHandler, hall, statusRank]

/-- Claim C7, counterexample: Scenario C's recovered entry carries the
title ": Thermodynamics" — the pattern consumes only an optional '.' after
the chapter number, so the colon stays in the title group — not the title
"Thermodynamics" the claim asserts. -/
theorem c7_scenario_c_counterexample :
    extract_table_of_contents [scenCPage] =
      [⟨"2".data, ": Thermodynamics".data, 45, 1⟩] ∧
    (": Thermodynamics".data : List Char) ≠ "Thermodynamics".data :=
  ⟨by decide, by decide⟩

/-- Claim C7, amended: the TOC page "Chapter 2: Thermodynamics....45"
yields exactly one entry with label 2, start page 45, level 1, and title
": Thermodynamics" (leading colon retained). -/
theorem c7_scenario_c_amended :
    (extract_table_of_contents [scenCPage]).map
        (fun e => (e.chapter_number, e.title, e.page_start, e.level)) =
      [("2".data, ": Thermodynamics".data, 45, 1)] := by
  decide

/-- Claim C8, counterexample: the TOC page "Contents\n2. Beta..9\n3.
Alpha..0" produces entries with start pages [9, 0] — the second is below 1
and the sequence decreases, because parsed page numbers are stored
untouched. -/
theorem c8_invariant_counterexample :
    (extract_table_of_contents [tocBadPage]).map (fun e => e.page_start) =
      [9, 0] ∧
    ((extract_table_of_contents [tocBadPage]).all
      (fun e => 1 ≤ e.page_start)) = false ∧
    ¬List.Chain' (fun a b => a.page_start ≤ b.page_start)
      (extract_table_of_contents [tocBadPage]) := by
  refine ⟨by decide, by decide, ?_⟩
  intro h
  rw [show extract_table_of_contents [tocBadPage] =
    [⟨"2".data, "Beta".data, 9, 1⟩, ⟨"3".data, "Alpha".data, 0, 1⟩] from
    by decide] at h
  rcases List.chain'_cons.mp h with ⟨h1, _⟩
  exact absurd h1 (by decide)

/-- Claim C8, amended: the invariant does hold for the heading-inference
fallback — its entries carry the 1-based index of the page they were found
on, so every start page is at least 1 and the sequence is non-decreasing;
TOC-pattern entries store the parsed number as-is and can violate both. -/
theorem c8_invariant_amended :
    ∀ pages : List (List Char),
      (∀ e ∈ infer_chapters_from_headings pages, 1 ≤ e.page_start) ∧
      List.Chain' (fun a b => a.page_start ≤ b.page_start)
        (infer_chapters_from_headings pages) := by
  intro pages
  unfold infer_chapters_from_headings
  refine ⟨?_, (inferAux_facts _ 0 0).2⟩
  intro e he
  exact ((inferAux_facts _ 0 0).1 e he).1.2

/-- Claim C8, witness: the amended statement applied to the one-page
document whose line "Chapter 1 Intro" is inferred as a heading. -/
theorem c8_invariant_witness :
    1 ≤ (⟨"1".data, "Chapter 1 Intro".data, 1, 1⟩ : TocEntry).page_start :=
  (c8_invariant_amended [headingPage]).1
    ⟨"1".data, "Chapter 1 Intro".data, 1, 1⟩ (by decide)

/-- Claim C9: a page text with no '?' yields zero candidates in both
modes: an exercise-mode buffer is flushed only when it contains a '?'
drawn from the page's lines, and a scattered-mode candidate must end with
'?', a character of the page text. -/
theorem c9_no_question_mark (t : List Char) (n : Nat)
    (h : countChar t '?' = 0) : extract_questions_from_page t n = [] := by
  have hnm : '?' ∉ t := not_mem_of_countChar_zero h
  unfold extract_questions_from_page
  have hqs : (if is_exercise_section t then
      extract_from_exercise_section t (splitLines t)
      else extract_scattered_questions t (splitLines t)) = [] := by
    split
    · unfold extract_from_exercise_section
      apply exerciseLoop_eq_nil
      · intro l hl hql
        exact hnm (mem_line_of_splitLines hl hql)
      · simp
    · rw [List.eq_nil_iff_forall_not_mem]
      intro q hq
      rcases scattered_shape hq with ⟨hval, hsub⟩
      exact hnm (hsub '?' (mem_of_endsWithC (is_valid_question_facts hval).1))
  rw [hqs]
  rfl

/-- Claim C9, witness: Scenario B — "The cat sat. Random sentence." has no
'?' and yields zero candidates. -/
theorem c9_no_question_mark_witness :
    extract_questions_from_page scenBPage 1 = [] :=
  c9_no_question_mark scenBPage 1 (by decide)

/-- Claim C10: the question-density branch of the exercise-section test
never divides by zero: it is guarded by a count of at least three '?'
characters, so the whitespace split of the text is non-empty;
`questionDensityCheck`, whose `none` result models `ZeroDivisionError`,
always returns a value. -/
theorem c10_density_no_div_zero :
    ∀ t : List Char, (questionDensityCheck t).isSome = true :=
  questionDensityCheck_total
